import Mathlib

/-!
Shallow embedding of `leabra7/log.py`: the `DataFrameBuffer` column buffer,
the `ObservableMixin` contract and the `Logger` recorder.

Modelling conventions:
* Python values (`Any`) are modelled by `Option V` for an arbitrary type `V`;
  the Python null marker `None` is `Option.none` (so an appended value may
  itself be the null marker, as in Python).
* The `collections.defaultdict` of lists is modelled by an insertion-ordered
  association list `List (String × List (Option V))`; a lookup of a missing
  key inserts a fresh column `[None] * self.length` at the end, exactly as
  the `defaultdict` with factory `new` does (Python dicts preserve insertion
  order).
* `pandas.DataFrame.from_dict` raises `ValueError` when the columns have
  unequal lengths; we model the materialized table as the column list itself
  and `to_df` as an `Except` that errors exactly on ragged columns.  With no
  columns, `from_dict({})` yields an empty frame (zero rows), which the model
  reflects through `nrows`.
* Exceptions are `Except Unit`; `observe` raising `ValueError` for an unknown
  attribute is `Except.error ()`.  `Logger.record` mutates the buffer only in
  its final statement, so an exception escaping the observe loop leaves the
  buffer untouched; `recordState` is the post-call state under exactly that
  semantics.
-/

namespace Leabra7

/-- An attribute observation: column name and value (`none` is the null marker). -/
abbrev AttrObs (V : Type) := String × Option V

/-- An observation of an object: a list of attribute observations. -/
abbrev ObjObs (V : Type) := List (AttrObs V)

/-- The state of a `DataFrameBuffer`: the row counter `self.length` and the
insertion-ordered dictionary `self.buf` mapping column names to value lists. -/
structure DataFrameBuffer (V : Type) where
  length : Nat
  buf : List (String × List (Option V))
deriving DecidableEq, Repr

/-- `DataFrameBuffer.__init__`: zero rows, empty dictionary. -/
def DataFrameBuffer.empty (V : Type) : DataFrameBuffer V := ⟨0, []⟩

/-- Column names currently present in a dictionary, in insertion order. -/
def keys (buf : List (String × List (Option V))) : List String :=
  buf.map Prod.fst

/-- Whether a dictionary currently has a column named `k`. -/
def hasKey (buf : List (String × List (Option V))) (k : String) : Bool :=
  buf.any fun p => decide (p.1 = k)

/-- Value of column `k` in the dictionary, if present (first binding). -/
def lookupCol (k : String) : List (String × List (Option V)) → Option (List (Option V))
  | [] => none
  | p :: rest => if p.1 = k then some p.2 else lookupCol k rest

/-- One iteration of the loop body `self.buf[k].append(v)`: the defaultdict
lookup creates the column as `[None] * len` (with `len = self.length` at the
time of the call) at the end of the dictionary if `k` is absent, then `v` is
appended to the column's list. -/
def updateCol (len : Nat) (k : String) (v : Option V) :
    List (String × List (Option V)) → List (String × List (Option V))
  | [] => [(k, List.replicate len none ++ [v])]
  | p :: rest =>
      if p.1 = k then (p.1, p.2 ++ [v]) :: rest
      else p :: updateCol len k v rest

/-- The dictionary after the `for k, v in row` loop of `append`. -/
def runRow (len : Nat) (row : ObjObs V) (buf : List (String × List (Option V))) :
    List (String × List (Option V)) :=
  row.foldl (fun acc p => updateCol len p.1 p.2 acc) buf

/-- `DataFrameBuffer._pad`: every column strictly shorter than `len` is
extended with `None` until it has length `len`; longer columns are untouched
(the `while` guard is `len(v) < self.length`). -/
def padColumns (len : Nat) (buf : List (String × List (Option V))) :
    List (String × List (Option V)) :=
  buf.map fun p => (p.1, p.2 ++ List.replicate (len - p.2.length) none)

/-- `DataFrameBuffer.append`: run the loop appending each value to its column,
increment `self.length`, then `self._pad()`. -/
def DataFrameBuffer.append (b : DataFrameBuffer V) (row : ObjObs V) :
    DataFrameBuffer V :=
  ⟨b.length + 1, padColumns (b.length + 1) (runRow b.length row b.buf)⟩

/-- A sequence of `append` calls, oldest first. -/
def DataFrameBuffer.appendAll (b : DataFrameBuffer V) (rows : List (ObjObs V)) :
    DataFrameBuffer V :=
  rows.foldl DataFrameBuffer.append b

/-- Ragged check: some column's length differs from the first column's length.
`pandas.DataFrame.from_dict` raises `ValueError` exactly in that case. -/
def raggedCols : List (String × List (Option V)) → Bool
  | [] => false
  | p :: rest => rest.any fun q => decide (q.2.length ≠ p.2.length)

/-- `DataFrameBuffer.to_df`: materialize the buffer with
`pd.DataFrame.from_dict(self.buf)`.  Errors iff the columns are ragged. -/
def DataFrameBuffer.to_df (b : DataFrameBuffer V) :
    Except Unit (List (String × List (Option V))) :=
  if raggedCols b.buf then .error () else .ok b.buf

/-- Row count of a materialized table: the common column length, `0` for a
table with no columns (`pd.DataFrame.from_dict({})` has zero rows). -/
def nrows : List (String × List (Option V)) → Nat
  | [] => 0
  | p :: _ => p.2.length

/-- The buffer well-formedness invariant: every column's length equals the row
counter, and the column names are distinct (true of any Python dict). -/
def DataFrameBuffer.wf (b : DataFrameBuffer V) : Prop :=
  (∀ p ∈ b.buf, p.2.length = b.length) ∧ (keys b.buf).Nodup

instance (b : DataFrameBuffer V) [DecidableEq V] : Decidable b.wf := by
  unfold DataFrameBuffer.wf; infer_instance

/-! ### Cost model for `append`

Unit-cost accounting of the Python operations in one `append` call:
* each loop iteration `self.buf[k].append(v)` costs `1` (dict lookup plus
  amortized list append) when the column exists, and `self.length + 1` when
  the defaultdict must first allocate `[None] * self.length`;
* `self.length += 1` costs `1`;
* `self._pad()` costs, per column, `1` for visiting it plus one unit per
  `None` appended. -/

/-- Cost of the `for k, v in row` loop, threading the evolving dictionary. -/
def runRowCost (len : Nat) : ObjObs V → List (String × List (Option V)) → Nat
  | [], _ => 0
  | p :: rest, buf =>
      (if hasKey buf p.1 then 1 else len + 1) +
        runRowCost len rest (updateCol len p.1 p.2 buf)

/-- Cost of `_pad` on a dictionary when the row counter is `len`. -/
def padCost (len : Nat) (buf : List (String × List (Option V))) : Nat :=
  (buf.map fun p => 1 + (len - p.2.length)).sum

/-- Total cost of one `append` call. -/
def DataFrameBuffer.appendCost (b : DataFrameBuffer V) (row : ObjObs V) : Nat :=
  runRowCost b.length row b.buf + 1 + padCost (b.length + 1) (runRow b.length row b.buf)

/-- Number of existing columns missing from the row (the `k` of the spec). -/
def missingCount (b : DataFrameBuffer V) (row : ObjObs V) : Nat :=
  (keys b.buf).countP fun c => !decide (c ∈ row.map Prod.fst)

/-- Number of observations in the row whose column does not yet exist. -/
def newCount (b : DataFrameBuffer V) (row : ObjObs V) : Nat :=
  row.countP fun p => !hasKey b.buf p.1

/-- The per-call cost bound asserted by the spec: some constant multiple of
(number of observations in the row) + (number of existing columns missing from
the row) + 1, uniformly over all buffers reachable by a sequence of appends.
"Never O(total history) work per call" is exactly the existence of such a
history-independent bound. -/
def boundedAppendCost : Prop :=
  ∃ c : Nat, ∀ (rows : List (ObjObs Nat)) (row : ObjObs Nat),
    ((DataFrameBuffer.empty Nat).appendAll rows).appendCost row ≤
      c * (row.length + missingCount ((DataFrameBuffer.empty Nat).appendAll rows) row + 1)

/-! ### The observable contract and the logger -/

/-- The `ObservableMixin` contract: a display name and an `observe` operation
that either returns the named sub-observations of an attribute or raises for
an unknown attribute (`Except.error ()`).  `observe` is a function, i.e. a
pure read: it cannot mutate the target. -/
structure ObservableMixin (V : Type) where
  name : String
  observe : String → Except Unit (ObjObs V)

/-- Mutating the target's `name` field (`target.name = n` in Python). -/
def rename (t : ObservableMixin V) (n : String) : ObservableMixin V :=
  { t with name := n }

/-- `Logger` state: the reference to the target, the cached
`self.target_name = target.name` snapshot, the attribute list and the owned
buffer. -/
structure Logger (V : Type) where
  target : ObservableMixin V
  target_name : String
  attrs : List String
  buffer : DataFrameBuffer V

/-- `Logger.__init__`. -/
def Logger.init (target : ObservableMixin V) (attrs : List String) : Logger V :=
  ⟨target, target.name, attrs, DataFrameBuffer.empty V⟩

/-- Renaming the target through the shared reference: the one target object is
mutated, so the logger's `target` field sees the new name. -/
def Logger.renameTarget (lg : Logger V) (n : String) : Logger V :=
  { lg with target := rename lg.target n }

/-- The `for a in self.attrs: row.extend(self.target.observe(a))` loop of
`Logger.record`: builds the row, propagating the first exception. -/
def buildRow (t : ObservableMixin V) : List String → Except Unit (ObjObs V)
  | [] => .ok []
  | a :: as =>
      match t.observe a with
      | .error e => .error e
      | .ok r =>
          match buildRow t as with
          | .error e => .error e
          | .ok rest => .ok (r ++ rest)

/-- `Logger.record`: build the row, then append it to the buffer.  An
exception from `observe` propagates before `self.buffer.append(row)` runs. -/
def Logger.record (lg : Logger V) : Except Unit (Logger V) :=
  match buildRow lg.target lg.attrs with
  | .error e => .error e
  | .ok row => .ok { lg with buffer := lg.buffer.append row }

/-- The logger state after a `record()` call returns or raises.  The method
mutates the buffer only in its final statement, so when the exception
propagates the state is the original one. -/
def Logger.recordState (lg : Logger V) : Logger V :=
  match lg.record with
  | .ok lg' => lg'
  | .error _ => lg

/-- Two independent loggers driven by an interleaved schedule: `true` steps
drive the first logger's `record()`, `false` steps the second's. -/
def runSchedule : List Bool → Logger V × Logger V → Logger V × Logger V
  | [], p => p
  | s :: rest, p =>
      runSchedule rest (if s then (p.1.recordState, p.2) else (p.1, p.2.recordState))

/-- A concrete observable target whose `observe` always raises (unknown
attribute), used as a test fixture. -/
def failTarget : ObservableMixin Nat := ⟨"layer1", fun _ => Except.error ()⟩

/-- A concrete observable target whose `observe` returns one observation named
after the attribute itself, used as a test fixture. -/
def okTarget : ObservableMixin Nat := ⟨"layer1", fun a => Except.ok [(a, some 0)]⟩

/-! ### Association-list lemmas -/

theorem keys_nil : keys ([] : List (String × List (Option V))) = [] := rfl

theorem keys_cons (p : String × List (Option V)) (l : List (String × List (Option V))) :
    keys (p :: l) = p.1 :: keys l := rfl

theorem keys_append (l1 l2 : List (String × List (Option V))) :
    keys (l1 ++ l2) = keys l1 ++ keys l2 :=
  List.map_append _ _ _

theorem hasKey_nil (k : String) : hasKey ([] : List (String × List (Option V))) k = false :=
  rfl

theorem hasKey_cons (p : String × List (Option V)) (l : List (String × List (Option V)))
    (k : String) : hasKey (p :: l) k = (decide (p.1 = k) || hasKey l k) := by
  simp [hasKey]

theorem hasKey_eq_any_keys (buf : List (String × List (Option V))) (k : String) :
    hasKey buf k = (keys buf).any fun x => decide (x = k) := by
  induction buf with
  | nil => rfl
  | cons p rest ih => simp [hasKey_cons, keys_cons, ih]

theorem hasKey_iff {buf : List (String × List (Option V))} {k : String} :
    hasKey buf k = true ↔ k ∈ keys buf := by
  rw [hasKey_eq_any_keys]
  simp only [List.any_eq_true, decide_eq_true_eq]
  constructor
  · rintro ⟨x, hx, rfl⟩
    exact hx
  · intro h
    exact ⟨k, h, rfl⟩

theorem hasKey_eq_false_iff {buf : List (String × List (Option V))} {k : String} :
    hasKey buf k = false ↔ k ∉ keys buf := by
  rw [← Bool.not_eq_true, not_iff_not]
  exact hasKey_iff

theorem keys_updateCol (len : Nat) (k : String) (v : Option V)
    (buf : List (String × List (Option V))) :
    keys (updateCol len k v buf) =
      if hasKey buf k then keys buf else keys buf ++ [k] := by
  induction buf with
  | nil => rfl
  | cons p rest ih =>
      by_cases hp : p.1 = k
      · have hk : hasKey (p :: rest) k = true := by
          simp [hasKey_cons, hp]
        simp only [updateCol, if_pos hp, hk, if_true, keys_cons]
      · have hk : hasKey (p :: rest) k = hasKey rest k := by
          simp [hasKey_cons, hp]
        simp only [updateCol, if_neg hp, keys_cons, hk]
        by_cases h2 : hasKey rest k
        · rw [if_pos h2]
          rw [if_pos h2] at ih
          rw [ih]
        · rw [if_neg h2]
          rw [if_neg h2] at ih
          rw [ih]
          rfl

theorem lookupCol_updateCol_self (len : Nat) (k : String) (v : Option V)
    (buf : List (String × List (Option V))) :
    lookupCol k (updateCol len k v buf) =
      some ((lookupCol k buf).getD (List.replicate len none) ++ [v]) := by
  induction buf with
  | nil => simp [updateCol, lookupCol]
  | cons p rest ih =>
      by_cases h : p.1 = k
      · simp [updateCol, lookupCol, h]
      · simp [updateCol, lookupCol, h, ih]

theorem lookupCol_updateCol_ne (len : Nat) {k q : String} (v : Option V)
    (buf : List (String × List (Option V))) (h : q ≠ k) :
    lookupCol q (updateCol len k v buf) = lookupCol q buf := by
  induction buf with
  | nil =>
      simp only [updateCol, lookupCol, if_neg (Ne.symm h)]
  | cons p rest ih =>
      by_cases hp : p.1 = k
      · have hpq : ¬p.1 = q := fun hh => h (hh.symm.trans hp)
        simp only [updateCol, if_pos hp, lookupCol, if_neg hpq]
      · simp only [updateCol, if_neg hp, lookupCol]
        by_cases hq : p.1 = q
        · simp only [if_pos hq]
        · simp only [if_neg hq, ih]

theorem lookupCol_isSome_iff {buf : List (String × List (Option V))} {k : String} :
    (lookupCol k buf).isSome = true ↔ k ∈ keys buf := by
  induction buf with
  | nil => simp [lookupCol, keys]
  | cons p rest ih =>
      by_cases h : p.1 = k
      · simp [lookupCol, keys, h]
      · simp only [lookupCol, if_neg h, keys, List.map_cons, List.mem_cons]
        rw [ih]
        constructor
        · exact fun hh => Or.inr hh
        · rintro (hh | hh)
          · exact absurd hh.symm h
          · exact hh

theorem lookupCol_eq_none_iff {buf : List (String × List (Option V))} {k : String} :
    lookupCol k buf = none ↔ k ∉ keys buf := by
  constructor
  · intro h hk
    have hs := lookupCol_isSome_iff.mpr hk
    rw [h] at hs
    simp at hs
  · intro hk
    cases hh : lookupCol k buf with
    | none => rfl
    | some c =>
        exact absurd (lookupCol_isSome_iff.mp (by rw [hh]; rfl)) hk

theorem lookupCol_of_mem {buf : List (String × List (Option V))}
    (hnd : (keys buf).Nodup) {p : String × List (Option V)} (hp : p ∈ buf) :
    lookupCol p.1 buf = some p.2 := by
  induction buf with
  | nil => cases hp
  | cons q rest ih =>
      simp only [keys, List.map_cons, List.nodup_cons] at hnd
      rcases List.mem_cons.mp hp with h | h
      · subst h; simp [lookupCol]
      · have hne : q.1 ≠ p.1 := by
          intro he
          exact hnd.1 (he ▸ List.mem_map_of_mem Prod.fst h)
        simp only [lookupCol, if_neg hne]
        exact ih hnd.2 h

theorem mem_of_lookupCol {buf : List (String × List (Option V))} {k : String}
    {c : List (Option V)} (h : lookupCol k buf = some c) : (k, c) ∈ buf := by
  induction buf with
  | nil => simp [lookupCol] at h
  | cons p rest ih =>
      by_cases hp : p.1 = k
      · simp only [lookupCol, if_pos hp, Option.some.injEq] at h
        have : p = (k, c) := by
          cases p
          simp_all
        exact this ▸ List.mem_cons_self _ _
      · simp only [lookupCol, if_neg hp] at h
        exact List.mem_cons_of_mem _ (ih h)

/-! ### Lemmas about the append loop -/

theorem runRow_nil (len : Nat) (buf : List (String × List (Option V))) :
    runRow len [] buf = buf := rfl

theorem runRow_cons (len : Nat) (p : AttrObs V) (row : ObjObs V)
    (buf : List (String × List (Option V))) :
    runRow len (p :: row) buf = runRow len row (updateCol len p.1 p.2 buf) := rfl

theorem hasKey_congr {buf1 buf2 : List (String × List (Option V))}
    (h : keys buf1 = keys buf2) (k : String) : hasKey buf1 k = hasKey buf2 k := by
  rw [hasKey_eq_any_keys, hasKey_eq_any_keys, h]

theorem keys_runRow (len : Nat) (row : ObjObs V) (buf : List (String × List (Option V)))
    (hnd : (row.map Prod.fst).Nodup) :
    keys (runRow len row buf) =
      keys buf ++ (row.map Prod.fst).filter fun x => !hasKey buf x := by
  induction row generalizing buf with
  | nil => simp [runRow]
  | cons p rest ih =>
      simp only [List.map_cons, List.nodup_cons] at hnd
      rw [runRow_cons]
      by_cases hp : hasKey buf p.1
      · have hkeys : keys (updateCol len p.1 p.2 buf) = keys buf := by
          rw [keys_updateCol, if_pos hp]
        have hfilter :
            (rest.map Prod.fst).filter (fun x => !hasKey (updateCol len p.1 p.2 buf) x) =
              (rest.map Prod.fst).filter fun x => !hasKey buf x :=
          List.filter_congr fun x _ => by rw [hasKey_congr hkeys]
        rw [ih _ hnd.2, hkeys, hfilter, List.map_cons, List.filter_cons]
        simp [hp]
      · have hkeys : keys (updateCol len p.1 p.2 buf) = keys buf ++ [p.1] := by
          rw [keys_updateCol, if_neg hp]
        have hfilter :
            (rest.map Prod.fst).filter (fun x => !hasKey (updateCol len p.1 p.2 buf) x) =
              (rest.map Prod.fst).filter fun x => !hasKey buf x := by
          apply List.filter_congr
          intro x hx
          have hxne : ¬x = p.1 := fun he => hnd.1 (he ▸ hx)
          rw [hasKey_eq_any_keys, hkeys, hasKey_eq_any_keys buf]
          simp only [List.any_append, List.any_cons, List.any_nil]
          have : ¬p.1 = x := fun he => hxne he.symm
          simp [this]
        rw [ih _ hnd.2, hkeys, hfilter, List.map_cons, List.filter_cons]
        simp [hp, List.append_assoc]

theorem lookupCol_runRow_not_mem (len : Nat) (row : ObjObs V)
    (buf : List (String × List (Option V))) {q : String}
    (hq : q ∉ row.map Prod.fst) :
    lookupCol q (runRow len row buf) = lookupCol q buf := by
  induction row generalizing buf with
  | nil => rfl
  | cons p rest ih =>
      simp only [List.map_cons, List.mem_cons, not_or] at hq
      rw [runRow_cons, ih _ hq.2, lookupCol_updateCol_ne len _ _ hq.1]

theorem lookupCol_runRow_mem (len : Nat) {row : ObjObs V}
    (buf : List (String × List (Option V))) {q : String} {v : Option V}
    (hnd : (row.map Prod.fst).Nodup) (hmem : (q, v) ∈ row) :
    lookupCol q (runRow len row buf) =
      some ((lookupCol q buf).getD (List.replicate len none) ++ [v]) := by
  induction row generalizing buf with
  | nil => cases hmem
  | cons p rest ih =>
      simp only [List.map_cons, List.nodup_cons] at hnd
      rcases List.mem_cons.mp hmem with h | h
      · have hp : p = (q, v) := h.symm
        subst hp
        rw [runRow_cons]
        have hq : q ∉ rest.map Prod.fst := hnd.1
        rw [lookupCol_runRow_not_mem len rest _ hq, lookupCol_updateCol_self]
      · have hne : q ≠ p.1 := by
          intro he
          exact hnd.1 (he ▸ List.mem_map_of_mem Prod.fst h)
        rw [runRow_cons, ih _ hnd.2 h, lookupCol_updateCol_ne len _ _ hne]

theorem nodup_keys_runRow (len : Nat) {row : ObjObs V}
    {buf : List (String × List (Option V))}
    (hnd : (row.map Prod.fst).Nodup) (hbnd : (keys buf).Nodup) :
    (keys (runRow len row buf)).Nodup := by
  rw [keys_runRow len row buf hnd]
  refine List.Nodup.append hbnd (hnd.filter _) ?_
  intro x hx1 hx2
  have hmf := List.of_mem_filter hx2
  have hfalse : hasKey buf x = false := by
    revert hmf
    cases hasKey buf x <;> simp
  exact (hasKey_eq_false_iff.mp hfalse) hx1

theorem length_col_runRow (len : Nat) {row : ObjObs V}
    {buf : List (String × List (Option V))}
    (hnd : (row.map Prod.fst).Nodup) (hbnd : (keys buf).Nodup)
    (hlen : ∀ p ∈ buf, p.2.length = len) :
    ∀ q ∈ runRow len row buf,
      q.2.length = len + (if q.1 ∈ row.map Prod.fst then 1 else 0) := by
  intro q hq
  have hlook := lookupCol_of_mem (nodup_keys_runRow len hnd hbnd) hq
  by_cases hmem : q.1 ∈ row.map Prod.fst
  · obtain ⟨pair, hpair, hfst⟩ := List.mem_map.mp hmem
    have hpmem : (q.1, pair.2) ∈ row := by
      have : pair = (q.1, pair.2) := by
        cases pair
        simp_all
      exact this ▸ hpair
    rw [lookupCol_runRow_mem len buf hnd hpmem] at hlook
    have hq2 : q.2 = (lookupCol q.1 buf).getD (List.replicate len none) ++ [pair.2] :=
      (Option.some.inj hlook).symm
    rw [hq2, if_pos hmem, List.length_append]
    cases hbuf : lookupCol q.1 buf with
    | none => simp
    | some c =>
        have := hlen _ (mem_of_lookupCol hbuf)
        simp only [hbuf, Option.getD_some]
        simp [this]
  · rw [lookupCol_runRow_not_mem len row buf hmem] at hlook
    have := hlen _ (mem_of_lookupCol hlook)
    simp [hmem, this]

/-! ### Padding and the buffer invariant -/

theorem keys_padColumns (len : Nat) (buf : List (String × List (Option V))) :
    keys (padColumns len buf) = keys buf := by
  simp only [keys, padColumns, List.map_map]
  rfl

theorem padColumns_length {len : Nat} {buf : List (String × List (Option V))}
    (h : ∀ p ∈ buf, p.2.length ≤ len) :
    ∀ q ∈ padColumns len buf, q.2.length = len := by
  intro q hq
  obtain ⟨p, hp, rfl⟩ := List.mem_map.mp hq
  simp only [List.length_append, List.length_replicate]
  exact Nat.add_sub_cancel' (h p hp)

theorem wf_empty : (DataFrameBuffer.empty V).wf := by
  constructor
  · intro p hp
    cases hp
  · exact List.nodup_nil

theorem wf_append {b : DataFrameBuffer V} {row : ObjObs V} (hw : b.wf)
    (hnd : (row.map Prod.fst).Nodup) : (b.append row).wf := by
  obtain ⟨hlen, hkeys⟩ := hw
  constructor
  · intro p hp
    have hle : ∀ q ∈ runRow b.length row b.buf, q.2.length ≤ b.length + 1 := by
      intro q hq
      rw [length_col_runRow b.length hnd hkeys hlen q hq]
      split <;> omega
    exact padColumns_length hle p hp
  · show (keys (padColumns (b.length + 1) (runRow b.length row b.buf))).Nodup
    rw [keys_padColumns]
    exact nodup_keys_runRow b.length hnd hkeys

theorem wf_appendAll {b : DataFrameBuffer V} (hw : b.wf) {rows : List (ObjObs V)}
    (h : ∀ r ∈ rows, (r.map Prod.fst).Nodup) : (b.appendAll rows).wf := by
  induction rows generalizing b with
  | nil => exact hw
  | cons r rest ih =>
      have := ih (wf_append hw (h r (List.mem_cons_self _ _)))
        fun r2 h2 => h r2 (List.mem_cons_of_mem _ h2)
      exact this

theorem append_length (b : DataFrameBuffer V) (row : ObjObs V) :
    (b.append row).length = b.length + 1 := rfl

theorem appendAll_length (b : DataFrameBuffer V) (rows : List (ObjObs V)) :
    (b.appendAll rows).length = b.length + rows.length := by
  induction rows generalizing b with
  | nil => rfl
  | cons r rest ih =>
      show ((b.append r).appendAll rest).length = b.length + (rest.length + 1)
      rw [ih (b.append r), append_length]
      omega

/-! ### Cost lemmas -/

theorem runRowCost_eq (len : Nat) (row : ObjObs V) (buf : List (String × List (Option V)))
    (hnd : (row.map Prod.fst).Nodup) :
    runRowCost len row buf = row.length + (row.countP fun p => !hasKey buf p.1) * len := by
  induction row generalizing buf with
  | nil => simp [runRowCost]
  | cons p rest ih =>
      simp only [List.map_cons, List.nodup_cons] at hnd
      simp only [runRowCost]
      by_cases hp : hasKey buf p.1
      · have hkeys : keys (updateCol len p.1 p.2 buf) = keys buf := by
          rw [keys_updateCol, if_pos hp]
        have hcong : (rest.countP fun q => !hasKey (updateCol len p.1 p.2 buf) q.1)
            = rest.countP fun q => !hasKey buf q.1 := by
          apply List.countP_congr
          intro q _
          rw [hasKey_congr hkeys q.1]
        rw [if_pos hp, ih _ hnd.2, hcong, List.length_cons, List.countP_cons]
        simp only [hp, Bool.not_true, Bool.false_eq_true, if_false]
        ring
      · have hkeys : keys (updateCol len p.1 p.2 buf) = keys buf ++ [p.1] := by
          rw [keys_updateCol, if_neg hp]
        have hcong : (rest.countP fun q => !hasKey (updateCol len p.1 p.2 buf) q.1)
            = rest.countP fun q => !hasKey buf q.1 := by
          apply List.countP_congr
          intro q hq
          have hqne : ¬q.1 = p.1 := fun he => hnd.1 (he ▸ List.mem_map_of_mem Prod.fst hq)
          have heq : hasKey (updateCol len p.1 p.2 buf) q.1 = hasKey buf q.1 := by
            rw [hasKey_eq_any_keys, hkeys, hasKey_eq_any_keys buf]
            simp only [List.any_append, List.any_cons, List.any_nil]
            have : ¬p.1 = q.1 := fun he => hqne he.symm
            simp [this]
          rw [heq]
        rw [if_neg hp, ih _ hnd.2, hcong, List.length_cons, List.countP_cons]
        simp only [hp, Bool.not_false, if_true, Bool.false_eq_true]
        ring

theorem sum_map_one_add {α : Type} (l : List α) (t : α → Nat) :
    (l.map fun x => 1 + t x).sum = l.length + (l.map t).sum := by
  induction l with
  | nil => rfl
  | cons x xs ih =>
      simp only [List.map_cons, List.sum_cons, ih, List.length_cons]
      omega

theorem sum_map_ite01 {α : Type} (l : List α) (P : α → Prop) [DecidablePred P] :
    (l.map fun x => if P x then 0 else 1).sum = l.countP fun x => !decide (P x) := by
  induction l with
  | nil => rfl
  | cons x xs ih =>
      by_cases h : P x
      · simp [h, ih, List.countP_cons]
      · simp [h, ih, List.countP_cons]
        omega

theorem length_runRow {b : DataFrameBuffer V} {row : ObjObs V}
    (hnd : (row.map Prod.fst).Nodup) :
    (runRow b.length row b.buf).length = b.buf.length + newCount b row := by
  have h := congrArg List.length (keys_runRow b.length row b.buf hnd)
  simp only [keys, List.length_map, List.length_append] at h
  rw [h, ← List.countP_eq_length_filter, List.countP_map]
  rfl

theorem padCost_runRow {b : DataFrameBuffer V} {row : ObjObs V}
    (hw : b.wf) (hnd : (row.map Prod.fst).Nodup) :
    padCost (b.length + 1) (runRow b.length row b.buf) =
      (b.buf.length + newCount b row) + missingCount b row := by
  unfold padCost
  have hcong : (runRow b.length row b.buf).map (fun q => 1 + (b.length + 1 - q.2.length))
      = (runRow b.length row b.buf).map
          fun q => 1 + (if q.1 ∈ row.map Prod.fst then 0 else 1) := by
    apply List.map_congr_left
    intro q hq
    rw [length_col_runRow b.length hnd hw.2 hw.1 q hq]
    by_cases hmem : q.1 ∈ row.map Prod.fst <;> simp [hmem]
  rw [hcong, sum_map_one_add, length_runRow hnd]
  have hsum : ((runRow b.length row b.buf).map
      fun q => if q.1 ∈ row.map Prod.fst then 0 else 1).sum
      = (runRow b.length row b.buf).countP fun q => !decide (q.1 ∈ row.map Prod.fst) :=
    sum_map_ite01 _ _
  rw [hsum]
  have hcount : ((runRow b.length row b.buf).countP
        fun q => !decide (q.1 ∈ row.map Prod.fst))
      = missingCount b row := by
    have hmapped : ((runRow b.length row b.buf).countP
          fun q => !decide (q.1 ∈ row.map Prod.fst))
        = (keys (runRow b.length row b.buf)).countP
            fun c => !decide (c ∈ row.map Prod.fst) := by
      rw [show keys (runRow b.length row b.buf)
            = (runRow b.length row b.buf).map Prod.fst from rfl, List.countP_map]
      rfl
    rw [hmapped, keys_runRow b.length row b.buf hnd, List.countP_append]
    have hzero : (((row.map Prod.fst).filter fun x => !hasKey b.buf x).countP
        fun c => !decide (c ∈ row.map Prod.fst)) = 0 := by
      rw [List.countP_eq_zero]
      intro a ha
      have hmem : a ∈ row.map Prod.fst := (List.mem_filter.mp ha).1
      simp [hmem]
    rw [hzero]
    rfl
  rw [hcount]

theorem appendCost_eq {b : DataFrameBuffer V} {row : ObjObs V} (hw : b.wf)
    (hnd : (row.map Prod.fst).Nodup) :
    b.appendCost row = row.length + newCount b row * b.length + 1
      + (b.buf.length + newCount b row) + missingCount b row := by
  unfold DataFrameBuffer.appendCost
  rw [runRowCost_eq _ _ _ hnd, padCost_runRow hw hnd]
  unfold newCount
  ring

theorem countP_split {α : Type} (l : List α) (p : α → Bool) :
    l.length = l.countP p + l.countP fun a => !p a := by
  induction l with
  | nil => rfl
  | cons x xs ih =>
      simp only [List.length_cons, List.countP_cons, ih]
      cases hx : p x <;> simp <;> omega

theorem buf_length_le {b : DataFrameBuffer V} (row : ObjObs V) (hw : b.wf) :
    b.buf.length ≤ missingCount b row + row.length := by
  have hbuflen : b.buf.length = (keys b.buf).length := (List.length_map _ _).symm
  have hsplit := countP_split (keys b.buf) fun c => !decide (c ∈ row.map Prod.fst)
  have hnn : ((keys b.buf).countP fun a => !(!decide (a ∈ row.map Prod.fst)))
      = (keys b.buf).countP fun a => decide (a ∈ row.map Prod.fst) :=
    List.countP_congr fun a _ => by simp
  have hpresent : ((keys b.buf).countP fun a => decide (a ∈ row.map Prod.fst))
      ≤ row.length := by
    rw [List.countP_eq_length_filter]
    have hnodup : ((keys b.buf).filter fun a => decide (a ∈ row.map Prod.fst)).Nodup :=
      hw.2.filter _
    have hsub : ∀ x ∈ (keys b.buf).filter fun a => decide (a ∈ row.map Prod.fst),
        x ∈ row.map Prod.fst := by
      intro x hx
      have h1 := List.of_mem_filter hx
      exact of_decide_eq_true h1
    calc ((keys b.buf).filter fun a => decide (a ∈ row.map Prod.fst)).length
        = ((keys b.buf).filter fun a => decide (a ∈ row.map Prod.fst)).toFinset.card :=
          (List.toFinset_card_of_nodup hnodup).symm
      _ ≤ (row.map Prod.fst).toFinset.card := by
          apply Finset.card_le_card
          intro x hx
          exact List.mem_toFinset.mpr (hsub x (List.mem_toFinset.mp hx))
      _ ≤ (row.map Prod.fst).length := List.toFinset_card_le _
      _ = row.length := List.length_map _ _
  have hmiss : ((keys b.buf).countP fun c => !decide (c ∈ row.map Prod.fst))
      = missingCount b row := rfl
  omega

/-! ### Logger lemmas -/

theorem buildRow_error {t : ObservableMixin V} {attrs : List String}
    (h : ∃ a ∈ attrs, t.observe a = .error ()) : buildRow t attrs = .error () := by
  induction attrs with
  | nil =>
      obtain ⟨a, ha, _⟩ := h
      cases ha
  | cons a0 rest ih =>
      obtain ⟨a, ha, herr⟩ := h
      cases hobs : t.observe a0 with
      | error e =>
          cases e
          simp [buildRow, hobs]
      | ok r =>
          have hrest : ∃ a ∈ rest, t.observe a = .error () := by
            rcases List.mem_cons.mp ha with rfl | ha2
            · rw [herr] at hobs
              cases hobs
            · exact ⟨a, ha2, herr⟩
          simp [buildRow, hobs, ih hrest]

theorem buildRow_ok {t : ObservableMixin V} {attrs : List String} {obs : String → ObjObs V}
    (h : ∀ a ∈ attrs, t.observe a = .ok (obs a)) :
    buildRow t attrs = .ok (attrs.flatMap obs) := by
  induction attrs with
  | nil => rfl
  | cons a rest ih =>
      have h0 := h a (List.mem_cons_self _ _)
      have htail := ih fun x hx => h x (List.mem_cons_of_mem _ hx)
      simp [buildRow, h0, htail, List.flatMap_cons]

theorem runSchedule_eq (s : List Bool) (l1 l2 : Logger V) :
    runSchedule s (l1, l2) =
      (Logger.recordState^[s.count true] l1, Logger.recordState^[s.count false] l2) := by
  induction s generalizing l1 l2 with
  | nil => simp [runSchedule]
  | cons b rest ih =>
      cases b
      · show runSchedule rest (l1, l2.recordState) = _
        rw [ih]
        have hc1 : (false :: rest).count true = rest.count true := by
          simp [List.count_cons]
        have hc2 : (false :: rest).count false = rest.count false + 1 := by
          simp [List.count_cons]
        rw [hc1, hc2, Function.iterate_succ_apply]
      · show runSchedule rest (l1.recordState, l2) = _
        rw [ih]
        have hc1 : (true :: rest).count true = rest.count true + 1 := by
          simp [List.count_cons]
        have hc2 : (true :: rest).count false = rest.count false := by
          simp [List.count_cons]
        rw [hc1, hc2, Function.iterate_succ_apply]

/-! ### Further helper lemmas -/

theorem lookupCol_padColumns (len : Nat) (buf : List (String × List (Option V)))
    (k : String) :
    lookupCol k (padColumns len buf) =
      (lookupCol k buf).map fun c => c ++ List.replicate (len - c.length) none := by
  induction buf with
  | nil => rfl
  | cons p rest ih =>
      by_cases h : p.1 = k
      · simp only [padColumns, List.map_cons, lookupCol, if_pos h]
        rfl
      · simp only [padColumns, List.map_cons, lookupCol, if_neg h] at ih ⊢
        exact ih

theorem raggedCols_eq_false {buf : List (String × List (Option V))} {L : Nat}
    (h : ∀ p ∈ buf, p.2.length = L) : raggedCols buf = false := by
  cases buf with
  | nil => rfl
  | cons p rest =>
      simp only [raggedCols, List.any_eq_false]
      intro q hq
      have h1 := h q (List.mem_cons_of_mem _ hq)
      have h2 := h p (List.mem_cons_self _ _)
      simp [h1, h2]

theorem to_df_ok_of_wf {b : DataFrameBuffer V} (hw : b.wf) :
    b.to_df = Except.ok b.buf := by
  unfold DataFrameBuffer.to_df
  rw [raggedCols_eq_false hw.1]
  rfl

theorem single_col_append (m : Nat) :
    (⟨m, [("a", List.replicate m (some 0))]⟩ : DataFrameBuffer Nat).append [("a", some 0)]
      = ⟨m + 1, [("a", List.replicate (m + 1) (some 0))]⟩ := by
  unfold DataFrameBuffer.append
  congr 1
  have h1 : runRow m [("a", some 0)] [("a", List.replicate m (some 0))]
      = [("a", List.replicate m (some 0) ++ [some 0])] := by
    show updateCol m "a" (some 0) [("a", List.replicate m (some 0))] = _
    unfold updateCol
    rw [if_pos rfl]
  rw [h1]
  unfold padColumns
  simp [List.replicate_succ']

theorem single_col_appendAll (n : Nat) :
    (DataFrameBuffer.empty Nat).appendAll (List.replicate (n + 1) [("a", some 0)])
      = ⟨n + 1, [("a", List.replicate (n + 1) (some 0))]⟩ := by
  induction n with
  | zero => decide
  | succ k ih =>
      have hstep : (DataFrameBuffer.empty Nat).appendAll
            (List.replicate (k + 1 + 1) [("a", some 0)])
          = ((DataFrameBuffer.empty Nat).appendAll
              (List.replicate (k + 1) [("a", some 0)])).append [("a", some 0)] := by
        unfold DataFrameBuffer.appendAll
        rw [List.replicate_succ' (k + 1), List.foldl_append]
        rfl
      rw [hstep, ih, single_col_append]

theorem single_col_appendCost (N : Nat) :
    (⟨N, [("a", List.replicate N (some 0))]⟩ : DataFrameBuffer Nat).appendCost
        [("b", some 0)] = N + 5 := by
  have hk : hasKey [("a", List.replicate N (some 0))] "b" = false := by
    simp [hasKey]
  have h1 : runRowCost N [("b", some 0)] [("a", List.replicate N (some 0))] = N + 1 := by
    unfold runRowCost
    rw [hk]
    simp [runRowCost]
  have h2 : runRow N [("b", some 0)] [("a", List.replicate N (some 0))]
      = [("a", List.replicate N (some 0)), ("b", List.replicate N none ++ [some 0])] := by
    show updateCol N "b" (some 0) [("a", List.replicate N (some 0))] = _
    unfold updateCol
    rw [if_neg (show ¬("a" : String) = "b" from by decide)]
    rfl
  have h3 : padCost (N + 1)
      [("a", List.replicate N (some 0)), ("b", List.replicate N none ++ [some 0])] = 3 := by
    unfold padCost
    simp only [List.map_cons, List.map_nil, List.sum_cons, List.sum_nil,
      List.length_replicate, List.length_append, List.length_cons, List.length_nil]
    omega
  show runRowCost N [("b", some 0)] [("a", List.replicate N (some 0))] + 1
      + padCost (N + 1) (runRow N [("b", some 0)] [("a", List.replicate N (some 0))]) = N + 5
  rw [h1, h2, h3]

/-! ### Claim theorems -/

/-- Claim C1, counterexample: the claim quantifies over rows that are arbitrary
lists of (name, value) pairs.  Appending the single row
`[("a", 1), ("a", 2)]` (a duplicated column name) appends twice to column `a`,
so the column has length 2 while the row count is 1, and `_pad` never trims:
the invariant fails. -/
theorem C1_counterexample :
    ¬ (∀ p ∈ ((DataFrameBuffer.empty Nat).append [("a", some 1), ("a", some 2)]).buf,
        p.2.length
          = ((DataFrameBuffer.empty Nat).append [("a", some 1), ("a", some 2)]).length) := by
  decide

/-- Claim C1 (amended): for every sequence of appended rows in which each row's
column names are pairwise distinct, after each append (i.e. after any prefix of
the sequence) every column's stored length equals the buffer's row count. -/
theorem C1_columns_match_row_count (rows : List (ObjObs V))
    (h : ∀ r ∈ rows, (r.map Prod.fst).Nodup) (n : Nat) :
    ∀ p ∈ ((DataFrameBuffer.empty V).appendAll (rows.take n)).buf,
      p.2.length = ((DataFrameBuffer.empty V).appendAll (rows.take n)).length :=
  (wf_appendAll wf_empty fun r hr => h r (List.mem_of_mem_take hr)).1

/-- Witness for C1 at a concrete two-row input. -/
theorem C1_columns_match_row_count_witness :
    (∀ r ∈ [[(("a" : String), some 1), ("b", some 2)], [("c", (none : Option Nat))]],
        (r.map Prod.fst).Nodup) ∧
    ∀ p ∈ ((DataFrameBuffer.empty Nat).appendAll
        ([[("a", some 1), ("b", some 2)], [("c", none)]].take 2)).buf,
      p.2.length = ((DataFrameBuffer.empty Nat).appendAll
        ([[("a", some 1), ("b", some 2)], [("c", none)]].take 2)).length :=
  ⟨by decide, C1_columns_match_row_count _ (by decide) 2⟩

/-- Claim C2: appending a row (with distinct column names) containing a column
name `k` never seen before creates that column backfilled with the null marker
for every prior row, followed by the new value. -/
theorem C2_new_column_backfilled {b : DataFrameBuffer V} {row : ObjObs V}
    {k : String} {v : Option V} (hnd : (row.map Prod.fst).Nodup)
    (hnew : hasKey b.buf k = false) (hmem : (k, v) ∈ row) :
    lookupCol k (b.append row).buf = some (List.replicate b.length none ++ [v]) := by
  have h1 : lookupCol k (runRow b.length row b.buf)
      = some (List.replicate b.length none ++ [v]) := by
    rw [lookupCol_runRow_mem b.length b.buf hnd hmem,
      lookupCol_eq_none_iff.mpr (hasKey_eq_false_iff.mp hnew)]
    rfl
  show lookupCol k (padColumns (b.length + 1) (runRow b.length row b.buf)) = _
  rw [lookupCol_padColumns, h1]
  simp

/-- Witness for C2: the claim's concrete scenario.  Row R1 has only column `a`;
row R2 introduces column `b`; afterwards column `b` is `[null, R2.b]`. -/
theorem C2_new_column_backfilled_witness :
    ((([(("a" : String), some 20), ("b", some 30)].map Prod.fst).Nodup) ∧
      hasKey ((DataFrameBuffer.empty Nat).append [("a", some 10)]).buf "b" = false ∧
      (("b", some 30) ∈ [(("a" : String), some 20), ("b", (some 30 : Option Nat))])) ∧
    lookupCol "b" (((DataFrameBuffer.empty Nat).append [("a", some 10)]).append
        [("a", some 20), ("b", some 30)]).buf
      = some [none, some 30] :=
  ⟨⟨by decide, by decide, by decide⟩,
    C2_new_column_backfilled (by decide) (by decide) (by decide)⟩

/-- Claim C3, counterexample: after one `append` of an empty row the internal
row count is 1, but `pd.DataFrame.from_dict({})` of the still-empty dictionary
materializes a table with zero rows, not 1.  With zero columns the claimed
equality fails. -/
theorem C3_counterexample :
    ((DataFrameBuffer.empty Nat).append []).to_df = Except.ok [] ∧
    ((DataFrameBuffer.empty Nat).append []).length = 1 ∧
    nrows ([] : List (String × List (Option Nat))) ≠ 1 :=
  ⟨rfl, rfl, by decide⟩

/-- Claim C3 (amended): the materialized table's row count equals the number of
append calls provided each appended row has distinct column names and at least
one column exists; with zero columns the materialized table has zero rows. -/
theorem C3_nrows_eq_append_count (rows : List (ObjObs V))
    (h : ∀ r ∈ rows, (r.map Prod.fst).Nodup)
    (hne : ((DataFrameBuffer.empty V).appendAll rows).buf ≠ []) :
    ∃ tbl, ((DataFrameBuffer.empty V).appendAll rows).to_df = Except.ok tbl ∧
      nrows tbl = rows.length := by
  have hw := wf_appendAll wf_empty h
  refine ⟨((DataFrameBuffer.empty V).appendAll rows).buf, to_df_ok_of_wf hw, ?_⟩
  have hlength : ((DataFrameBuffer.empty V).appendAll rows).length = rows.length := by
    rw [appendAll_length]
    exact Nat.zero_add rows.length
  cases hbuf : ((DataFrameBuffer.empty V).appendAll rows).buf with
  | nil => exact absurd hbuf hne
  | cons p rest =>
      have hp := hw.1 p (by rw [hbuf]; exact List.mem_cons_self _ _)
      show p.2.length = rows.length
      rw [hp, hlength]

/-- Witness for C3 at a concrete one-row input. -/
theorem C3_nrows_eq_append_count_witness :
    ((∀ r ∈ [[(("a" : String), (some 5 : Option Nat))]], (r.map Prod.fst).Nodup) ∧
      ((DataFrameBuffer.empty Nat).appendAll [[("a", some 5)]]).buf ≠ []) ∧
    ∃ tbl, ((DataFrameBuffer.empty Nat).appendAll [[("a", some 5)]]).to_df
        = Except.ok tbl ∧ nrows tbl = 1 :=
  ⟨⟨by decide, by decide⟩, C3_nrows_eq_append_count _ (by decide) (by decide)⟩

/-- Claim C4: if `observe` raises the unknown-attribute error for some
configured attribute, the error propagates out of `record()` (the result is the
exception, not a new state) and the buffer is unchanged, because the method
mutates the buffer only in its final statement. -/
theorem C4_error_propagates {lg : Logger V}
    (h : ∃ a ∈ lg.attrs, lg.target.observe a = .error ()) :
    lg.record = .error () ∧ lg.recordState.buffer = lg.buffer := by
  have hb := buildRow_error h
  constructor
  · simp [Logger.record, hb]
  · simp [Logger.recordState, Logger.record, hb]

/-- Witness for C4: a target whose `observe` always raises. -/
theorem C4_error_propagates_witness :
    (∃ a ∈ (Logger.init failTarget ["act"]).attrs,
        (Logger.init failTarget ["act"]).target.observe a = .error ()) ∧
    (Logger.init failTarget ["act"]).record = .error () ∧
    (Logger.init failTarget ["act"]).recordState.buffer
      = (Logger.init failTarget ["act"]).buffer :=
  ⟨⟨"act", by decide, rfl⟩, C4_error_propagates ⟨"act", by decide, rfl⟩⟩

/-- Claim C5, counterexample: the state reached by appending the rows
`[("a",1),("a",2)]` and then `[("a",5),("b",3)]` has column `a` of length 3 and
column `b` of length 2, so `pd.DataFrame.from_dict` raises: materialization is
not total on reachable buffer states. -/
theorem C5_counterexample :
    ((DataFrameBuffer.empty Nat).appendAll
        [[("a", some 1), ("a", some 2)], [("a", some 5), ("b", some 3)]]).to_df
      = Except.error () := rfl

/-- Claim C5 (amended): provided each appended row has distinct column names,
materialization never fails.  (Purity, idempotence and non-mutation hold by
construction in this model: `to_df` is a function of the buffer state alone and
returns no modified state.) -/
theorem C5_to_df_total (rows : List (ObjObs V))
    (h : ∀ r ∈ rows, (r.map Prod.fst).Nodup) :
    ∃ tbl, ((DataFrameBuffer.empty V).appendAll rows).to_df = Except.ok tbl :=
  ⟨_, to_df_ok_of_wf (wf_appendAll wf_empty h)⟩

/-- Witness for C5 at a concrete two-row input. -/
theorem C5_to_df_total_witness :
    (∀ r ∈ [[(("a" : String), (some 1 : Option Nat))], [("a", some 2), ("b", some 3)]],
        (r.map Prod.fst).Nodup) ∧
    ∃ tbl, ((DataFrameBuffer.empty Nat).appendAll
        [[("a", some 1)], [("a", some 2), ("b", some 3)]]).to_df = Except.ok tbl :=
  ⟨by decide, C5_to_df_total _ (by decide)⟩

/-- Claim C6: when every configured attribute observes successfully, `record()`
appends exactly one row — the concatenation of the observe results in
configured order, each call's own sub-observations kept in order — and the
buffer's row count grows by exactly one. -/
theorem C6_record_appends_row {lg : Logger V} {obs : String → ObjObs V}
    (h : ∀ a ∈ lg.attrs, lg.target.observe a = .ok (obs a)) :
    lg.record = .ok { lg with buffer := lg.buffer.append (lg.attrs.flatMap obs) } ∧
    lg.recordState.buffer.length = lg.buffer.length + 1 := by
  have hb := buildRow_ok h
  constructor
  · simp [Logger.record, hb]
  · simp [Logger.recordState, Logger.record, hb]
    rfl

/-- Witness for C6: a two-attribute logger over the fixture target. -/
theorem C6_record_appends_row_witness :
    (∀ a ∈ (Logger.init okTarget ["u", "v"]).attrs,
        (Logger.init okTarget ["u", "v"]).target.observe a = .ok [(a, some 0)]) ∧
    (Logger.init okTarget ["u", "v"]).record
        = .ok { Logger.init okTarget ["u", "v"] with
            buffer := (Logger.init okTarget ["u", "v"]).buffer.append
              (["u", "v"].flatMap fun a => [(a, some 0)]) } ∧
    (Logger.init okTarget ["u", "v"]).recordState.buffer.length
      = (Logger.init okTarget ["u", "v"]).buffer.length + 1 :=
  ⟨fun _ _ => rfl, C6_record_appends_row fun _ _ => rfl⟩

/-- Claim C7: the logger's stored target name is a snapshot taken at
construction: renaming the target afterwards (visible through the shared
`target` reference, second conjunct) leaves the cached `target_name` equal to
the name the target had at construction (first conjunct). -/
theorem C7_name_snapshot (t : ObservableMixin V) (attrs : List String) (n : String) :
    ((Logger.init t attrs).renameTarget n).target_name = t.name ∧
    ((Logger.init t attrs).renameTarget n).target.name = n :=
  ⟨rfl, rfl⟩

/-- Claim C8: two loggers built identically on the same target (whose observe
is a pure read, as every function in this model is) and driven through the same
number of record() calls in any interleaving end in identical states — in
particular identical buffers — and each component equals the solo run of that
logger, so neither logger's operations affect the other's buffer. -/
theorem C8_independent_recorders (t : ObservableMixin V) (attrs : List String)
    (s : List Bool) (h : s.count true = s.count false) :
    (runSchedule s (Logger.init t attrs, Logger.init t attrs)).1
      = (runSchedule s (Logger.init t attrs, Logger.init t attrs)).2 ∧
    (runSchedule s (Logger.init t attrs, Logger.init t attrs)).1
      = Logger.recordState^[s.count true] (Logger.init t attrs) := by
  rw [runSchedule_eq]
  constructor
  · simp [h]
  · rfl

/-- Witness for C8 on a concrete interleaving with two records each. -/
theorem C8_independent_recorders_witness :
    ([true, false, false, true].count true = [true, false, false, true].count false) ∧
    ((runSchedule [true, false, false, true]
        (Logger.init okTarget ["act"], Logger.init okTarget ["act"])).1
      = (runSchedule [true, false, false, true]
        (Logger.init okTarget ["act"], Logger.init okTarget ["act"])).2 ∧
    (runSchedule [true, false, false, true]
        (Logger.init okTarget ["act"], Logger.init okTarget ["act"])).1
      = Logger.recordState^[[true, false, false, true].count true]
          (Logger.init okTarget ["act"])) :=
  ⟨by decide, C8_independent_recorders okTarget ["act"] [true, false, false, true] (by decide)⟩

/-- Claim C9, counterexample: no constant `c` bounds the cost of one append
call by `c * (observations + missing columns + 1)` over all reachable buffers:
appending a row with one brand-new column after `3c+1` rows of column `a`
costs `3c+6` units (the defaultdict backfills `[None] * length`), exceeding the
budget `3c`.  A single call can cost Θ(total history). -/
theorem C9_counterexample : ¬boundedAppendCost := by
  rintro ⟨c, hc⟩
  have hinst := hc (List.replicate (3 * c + 1) [("a", some 0)]) [("b", some 0)]
  rw [single_col_appendAll (3 * c), single_col_appendCost (3 * c + 1)] at hinst
  have hmiss : missingCount
      (⟨3 * c + 1, [("a", List.replicate (3 * c + 1) (some 0))]⟩ : DataFrameBuffer Nat)
      [("b", some 0)] = 1 := rfl
  rw [hmiss, List.length_singleton] at hinst
  omega

/-- Claim C9 (amended): one append call costs at most a constant multiple of
(observations in the row) + (existing columns missing from the row) + (row
count × number of new columns the row introduces) + 1.  The backfill term is
the correction: creating a column after `t` rows costs Θ(t), so the cost is
amortized O(1) per observation plus O(k) padding only when no new column is
introduced late. -/
theorem C9_cost_bound {b : DataFrameBuffer V} {row : ObjObs V} (hw : b.wf)
    (hnd : (row.map Prod.fst).Nodup) :
    b.appendCost row
      ≤ 4 * (row.length + missingCount b row + newCount b row * b.length + 1) := by
  rw [appendCost_eq hw hnd]
  have h1 := buf_length_le row hw
  have h2 : newCount b row ≤ row.length := List.countP_le_length _
  generalize newCount b row * b.length = P
  omega

/-- Witness for C9 at a concrete buffer and row. -/
theorem C9_cost_bound_witness :
    (((DataFrameBuffer.empty Nat).append [("a", some 1)]).wf ∧
      (([(("a" : String), some 2), ("b", some 3)].map Prod.fst).Nodup)) ∧
    ((DataFrameBuffer.empty Nat).append [("a", some 1)]).appendCost
        [("a", some 2), ("b", some 3)]
      ≤ 4 * ([(("a" : String), (some 2 : Option Nat)), ("b", some 3)].length
          + missingCount ((DataFrameBuffer.empty Nat).append [("a", some 1)])
              [("a", some 2), ("b", some 3)]
          + newCount ((DataFrameBuffer.empty Nat).append [("a", some 1)])
              [("a", some 2), ("b", some 3)]
            * ((DataFrameBuffer.empty Nat).append [("a", some 1)]).length + 1) :=
  ⟨⟨by decide, by decide⟩, C9_cost_bound (by decide) (by decide)⟩

/-- Claim C10: on any buffer satisfying the length invariant, appending an
empty row increments the row count by one, creates no column, and appends one
null to every existing column; and a logger configured with an empty attribute
list grows its buffer's row count on every record() call while the buffer has
no columns. -/
theorem C10_empty_row {b : DataFrameBuffer V}
    (h : ∀ p ∈ b.buf, p.2.length = b.length) :
    b.append [] = ⟨b.length + 1, b.buf.map fun p => (p.1, p.2 ++ [none])⟩ ∧
    ∀ (t : ObservableMixin V) (n : Nat),
      (Logger.recordState^[n] (Logger.init t [])).buffer = ⟨n, []⟩ := by
  constructor
  · unfold DataFrameBuffer.append
    congr 1
    show padColumns (b.length + 1) (runRow b.length [] b.buf) = _
    rw [runRow_nil]
    unfold padColumns
    apply List.map_congr_left
    intro p hp
    rw [h p hp]
    simp
  · intro t n
    have hfull : ∀ m, Logger.recordState^[m] (Logger.init t [])
        = ⟨t, t.name, [], ⟨m, []⟩⟩ := by
      intro m
      induction m with
      | zero => rfl
      | succ j ih =>
          rw [Function.iterate_succ_apply', ih]
          rfl
    rw [hfull n]

/-- Witness for C10 at a concrete one-column buffer. -/
theorem C10_empty_row_witness :
    (∀ p ∈ ((DataFrameBuffer.empty Nat).append [("a", some 7)]).buf,
        p.2.length = ((DataFrameBuffer.empty Nat).append [("a", some 7)]).length) ∧
    (((DataFrameBuffer.empty Nat).append [("a", some 7)]).append []
        = ⟨((DataFrameBuffer.empty Nat).append [("a", some 7)]).length + 1,
            ((DataFrameBuffer.empty Nat).append [("a", some 7)]).buf.map
              fun p => (p.1, p.2 ++ [none])⟩ ∧
      ∀ (t : ObservableMixin Nat) (n : Nat),
        (Logger.recordState^[n] (Logger.init t [])).buffer = ⟨n, []⟩) :=
  ⟨by decide, C10_empty_row (by decide)⟩

end Leabra7
